import Mathlib

/-!
Shallow embedding of `src/gwak/train/ssm.py` (S4D diagonal state-space
layer and the residual stack built on it), together with theorems that
settle the specification claims about it.

Tensors are embedded as functions out of `Fin`-indexed shapes into `ℝ`
or `ℂ`; `torch.fft.rfft`/`irfft` are embedded as the discrete Fourier
transform they compute, with zero padding made explicit.
-/

open Finset Complex

noncomputable section

/-! ### Discrete Fourier transform primitives

`torch.fft.rfft(x, n=M)` zero-pads `x` to length `M` and returns the DFT
bins `0 .. M/2`; `torch.fft.irfft(X, n=M)` reconstructs the length-`M`
real signal whose spectrum is `X` extended by Hermitian symmetry
(`X[M-j] = conj X[j]`).  We embed the full transforms; the bin
truncation of `rfft` is reflected in the fact that `irfft` only reads bins
`j ≤ M/2` of its argument directly and conjugates the mirrored bin for
`j > M/2`. -/

/-- The root-of-unity kernel `exp (2 π i r / M)` at exponent `r`. -/
def cexp2pi (M : ℕ) (r : ℂ) : ℂ := Complex.exp (2 * Real.pi * Complex.I * r / M)

/-- Forward DFT of a length-`M` complex signal, bin `j`. -/
def dft (M : ℕ) (x : ℕ → ℂ) (j : ℕ) : ℂ :=
  ∑ s ∈ Finset.range M, x s * cexp2pi M (-((j : ℂ) * (s : ℂ)))

/-- Hermitian extension of a half-spectrum: bins `j ≤ M/2` are read
directly, bins `j > M/2` are the conjugate of the mirrored bin, as
`torch.fft.irfft` assumes. -/
def hermBin (M : ℕ) (X : ℕ → ℂ) (j : ℕ) : ℂ :=
  if 2 * j ≤ M then X j else (starRingEnd ℂ) (X (M - j))

/-- Inverse real FFT: sample `t` of the length-`M` real signal whose
(Hermitian-extended) spectrum is `X`. -/
def irfft (M : ℕ) (X : ℕ → ℂ) (t : ℕ) : ℝ :=
  (((M : ℂ))⁻¹ * ∑ j ∈ Finset.range M, hermBin M X j * cexp2pi M ((j : ℂ) * (t : ℂ))).re

/-- Zero-extension of a length-`L` real signal to all of `ℕ`; this is the
padding performed by `rfft(x, n=2*L)`. -/
def padSig (L : ℕ) (x : Fin L → ℝ) (s : ℕ) : ℝ :=
  if h : s < L then x ⟨s, h⟩ else 0

/-- Embedding of `torch.fft.rfft(x, n=2*L)` for a real signal `x` of
length `L`: zero-pad to `2*L` and take the DFT. -/
def rfftPadded (L : ℕ) (x : Fin L → ℝ) (j : ℕ) : ℂ :=
  dft (2 * L) (fun s => ((padSig L x s : ℝ) : ℂ)) j

lemma cexp2pi_add (M : ℕ) (r s : ℂ) : cexp2pi M r * cexp2pi M s = cexp2pi M (r + s) := by
  rw [cexp2pi, cexp2pi, cexp2pi, ← Complex.exp_add]
  ring_nf

lemma cexp2pi_zero (M : ℕ) : cexp2pi M 0 = 1 := by
  simp [cexp2pi]

lemma cexp2pi_int_mul (M : ℕ) (hM : 0 < M) (c : ℤ) :
    cexp2pi M ((M : ℂ) * (c : ℂ)) = 1 := by
  rw [cexp2pi]
  have hMne : (M : ℂ) ≠ 0 := by
    exact_mod_cast Nat.cast_ne_zero.mpr hM.ne'
  have : 2 * (Real.pi : ℂ) * Complex.I * ((M : ℂ) * (c : ℂ)) / (M : ℂ)
      = (c : ℂ) * (2 * (Real.pi : ℂ) * Complex.I) := by
    field_simp
    ring
  rw [this]
  exact Complex.exp_int_mul_two_pi_mul_I c

/-- Geometric-sum orthogonality of the DFT kernel: summing
`exp (2 π i m j / M)` over `j < M` gives `M` when `M ∣ m` and `0`
otherwise. -/
lemma cexp2pi_sum (M : ℕ) (hM : 0 < M) (m : ℤ) :
    ∑ j ∈ Finset.range M, cexp2pi M ((m : ℂ) * (j : ℂ))
      = if (M : ℤ) ∣ m then (M : ℂ) else 0 := by
  have hMne : (M : ℂ) ≠ 0 := by
    exact_mod_cast Nat.cast_ne_zero.mpr hM.ne'
  have hterm : ∀ j : ℕ, cexp2pi M ((m : ℂ) * (j : ℂ)) = cexp2pi M (m : ℂ) ^ j := by
    intro j
    rw [cexp2pi, cexp2pi, ← Complex.exp_nat_mul]
    congr 1
    ring
  by_cases hdvd : (M : ℤ) ∣ m
  · obtain ⟨c, rfl⟩ := hdvd
    rw [if_pos ⟨c, rfl⟩]
    have hone : cexp2pi M ((((M : ℤ) * c : ℤ) : ℂ)) = 1 := by
      push_cast
      exact cexp2pi_int_mul M hM c
    calc ∑ j ∈ Finset.range M, cexp2pi M ((((M : ℤ) * c : ℤ) : ℂ) * (j : ℂ))
        = ∑ j ∈ Finset.range M, (1 : ℂ) := by
          refine Finset.sum_congr rfl fun j _ => ?_
          rw [hterm j, hone, one_pow]
      _ = (M : ℂ) := by simp
  · rw [if_neg hdvd]
    have hne1 : cexp2pi M (m : ℂ) ≠ 1 := by
      intro h1
      rw [cexp2pi, Complex.exp_eq_one_iff] at h1
      obtain ⟨n, hn⟩ := h1
      apply hdvd
      have h2pi : (2 * (Real.pi : ℂ) * Complex.I) ≠ 0 := by
        simp [Real.pi_ne_zero, Complex.I_ne_zero]
      have hcast : (m : ℂ) = (n : ℂ) * (M : ℂ) := by
        field_simp at hn
        -- `2 * π * I * m = n * (2 * π * I) * M`; cancel `2 * π * I`.
        apply mul_left_cancel₀ h2pi
        linear_combination hn
      have hint : m = n * (M : ℤ) := by exact_mod_cast hcast
      exact ⟨n, by rw [hint]; ring⟩
    have hpow : cexp2pi M (m : ℂ) ^ M = 1 := by
      rw [cexp2pi, ← Complex.exp_nat_mul]
      have : (M : ℂ) * (2 * (Real.pi : ℂ) * Complex.I * (m : ℂ) / (M : ℂ))
          = (m : ℂ) * (2 * (Real.pi : ℂ) * Complex.I) := by
        field_simp
        ring
      rw [this]
      exact Complex.exp_int_mul_two_pi_mul_I m
    calc ∑ j ∈ Finset.range M, cexp2pi M ((m : ℂ) * (j : ℂ))
        = ∑ j ∈ Finset.range M, cexp2pi M (m : ℂ) ^ j := by
          exact Finset.sum_congr rfl fun j _ => hterm j
      _ = (cexp2pi M (m : ℂ) ^ M - 1) / (cexp2pi M (m : ℂ) - 1) := geom_sum_eq hne1 M
      _ = 0 := by rw [hpow]; simp

lemma cexp2pi_nat_mul (M : ℕ) (hM : 0 < M) (s : ℕ) :
    cexp2pi M ((M : ℂ) * (s : ℂ)) = 1 := by
  have h := cexp2pi_int_mul M hM (s : ℤ)
  push_cast at h
  exact h

lemma conj_cexp2pi (M : ℕ) (r : ℂ) (hr : (starRingEnd ℂ) r = r) :
    (starRingEnd ℂ) (cexp2pi M r) = cexp2pi M (-r) := by
  rw [cexp2pi, cexp2pi, ← Complex.exp_conj]
  congr 1
  simp only [map_div₀, map_mul, map_ofNat, Complex.conj_I, Complex.conj_ofReal,
    map_natCast, hr]
  ring

/-- Hermitian symmetry of the DFT of a real signal: bin `M - j` is the
conjugate of bin `j`. -/
lemma dft_real_conj (M : ℕ) (hM : 0 < M) (x : ℕ → ℝ) (j : ℕ) (hj : j ≤ M) :
    (starRingEnd ℂ) (dft M (fun s => ((x s : ℝ) : ℂ)) (M - j))
      = dft M (fun s => ((x s : ℝ) : ℂ)) j := by
  rw [dft, dft, map_sum]
  refine Finset.sum_congr rfl fun s _ => ?_
  rw [map_mul, Complex.conj_ofReal]
  congr 1
  rw [conj_cexp2pi _ _ (by simp), neg_neg]
  have harg : (((M - j : ℕ) : ℂ)) * (s : ℂ)
      = (M : ℂ) * (s : ℂ) + -((j : ℂ) * (s : ℂ)) := by
    push_cast [Nat.cast_sub hj]
    ring
  rw [harg, ← cexp2pi_add, cexp2pi_nat_mul M hM s, one_mul]

/-- Core convolution theorem: for length-`L`-supported real signals `u`
and `k`, the `2·L`-padded DFT pointwise product, inverse-transformed and
read at `t < L`, is the direct causal time-domain convolution. -/
theorem irfft_dft_mul_eq_conv (L : ℕ) (k u : ℕ → ℝ)
    (hk : ∀ s, L ≤ s → k s = 0) (hu : ∀ s, L ≤ s → u s = 0)
    (t : ℕ) (ht : t < L) :
    irfft (2 * L) (fun j =>
        dft (2 * L) (fun s => ((u s : ℝ) : ℂ)) j
          * dft (2 * L) (fun s => ((k s : ℝ) : ℂ)) j) t
      = ∑ s ∈ Finset.range (t + 1), k s * u (t - s) := by
  have hM : 0 < 2 * L := by omega
  have hMne : ((2 * L : ℕ) : ℂ) ≠ 0 := by
    exact_mod_cast Nat.cast_ne_zero.mpr hM.ne'
  set U : ℕ → ℂ := dft (2 * L) (fun s => ((u s : ℝ) : ℂ)) with hU
  set K : ℕ → ℂ := dft (2 * L) (fun s => ((k s : ℝ) : ℂ)) with hK
  -- Step 1: the Hermitian extension coincides with the full product.
  have hherm : ∀ j ∈ Finset.range (2 * L),
      hermBin (2 * L) (fun j => U j * K j) j = U j * K j := by
    intro j hj
    rw [Finset.mem_range] at hj
    rw [hermBin]
    by_cases hhalf : 2 * j ≤ 2 * L
    · rw [if_pos hhalf]
    · rw [if_neg hhalf, map_mul, hU, hK,
        dft_real_conj (2 * L) hM u j hj.le, dft_real_conj (2 * L) hM k j hj.le]
  -- Step 2: evaluate the spectral sum as a double sum with orthogonality.
  have hsum : ∑ j ∈ Finset.range (2 * L), U j * K j * cexp2pi (2 * L) ((j : ℂ) * (t : ℂ))
      = ((2 * L : ℕ) : ℂ) * ∑ s ∈ Finset.range (t + 1), ((k s : ℝ) : ℂ) * ((u (t - s) : ℝ) : ℂ) := by
    have hexpand : ∀ j : ℕ, U j * K j * cexp2pi (2 * L) ((j : ℂ) * (t : ℂ))
        = ∑ a ∈ Finset.range (2 * L), ∑ b ∈ Finset.range (2 * L),
            ((u a : ℝ) : ℂ) * ((k b : ℝ) : ℂ)
              * cexp2pi (2 * L) ((((t : ℤ) - a - b : ℤ) : ℂ) * (j : ℂ)) := by
      intro j
      rw [hU, hK, dft, dft, Finset.sum_mul, Finset.sum_mul]
      refine Finset.sum_congr rfl fun a _ => ?_
      rw [Finset.mul_sum, Finset.sum_mul]
      refine Finset.sum_congr rfl fun b _ => ?_
      calc ((u a : ℝ) : ℂ) * cexp2pi (2 * L) (-((j : ℂ) * (a : ℂ)))
            * (((k b : ℝ) : ℂ) * cexp2pi (2 * L) (-((j : ℂ) * (b : ℂ))))
            * cexp2pi (2 * L) ((j : ℂ) * (t : ℂ))
          = ((u a : ℝ) : ℂ) * ((k b : ℝ) : ℂ)
            * (cexp2pi (2 * L) (-((j : ℂ) * (a : ℂ)))
              * cexp2pi (2 * L) (-((j : ℂ) * (b : ℂ)))
              * cexp2pi (2 * L) ((j : ℂ) * (t : ℂ))) := by ring
        _ = ((u a : ℝ) : ℂ) * ((k b : ℝ) : ℂ)
            * cexp2pi (2 * L) (-((j : ℂ) * (a : ℂ)) + -((j : ℂ) * (b : ℂ)) + (j : ℂ) * (t : ℂ)) := by
              rw [cexp2pi_add, cexp2pi_add]
        _ = ((u a : ℝ) : ℂ) * ((k b : ℝ) : ℂ)
            * cexp2pi (2 * L) ((((t : ℤ) - a - b : ℤ) : ℂ) * (j : ℂ)) := by
              congr 2
              push_cast
              ring
    calc ∑ j ∈ Finset.range (2 * L), U j * K j * cexp2pi (2 * L) ((j : ℂ) * (t : ℂ))
        = ∑ j ∈ Finset.range (2 * L), ∑ a ∈ Finset.range (2 * L), ∑ b ∈ Finset.range (2 * L),
            ((u a : ℝ) : ℂ) * ((k b : ℝ) : ℂ)
              * cexp2pi (2 * L) ((((t : ℤ) - a - b : ℤ) : ℂ) * (j : ℂ)) := by
          exact Finset.sum_congr rfl fun j _ => hexpand j
      _ = ∑ a ∈ Finset.range (2 * L), ∑ b ∈ Finset.range (2 * L), ∑ j ∈ Finset.range (2 * L),
            ((u a : ℝ) : ℂ) * ((k b : ℝ) : ℂ)
              * cexp2pi (2 * L) ((((t : ℤ) - a - b : ℤ) : ℂ) * (j : ℂ)) := by
          rw [Finset.sum_comm]
          exact Finset.sum_congr rfl fun a _ => Finset.sum_comm
      _ = ∑ a ∈ Finset.range (2 * L), ∑ b ∈ Finset.range (2 * L),
            ((u a : ℝ) : ℂ) * ((k b : ℝ) : ℂ)
              * (if ((2 * L : ℕ) : ℤ) ∣ ((t : ℤ) - a - b) then ((2 * L : ℕ) : ℂ) else 0) := by
          refine Finset.sum_congr rfl fun a _ => Finset.sum_congr rfl fun b _ => ?_
          rw [← Finset.mul_sum, cexp2pi_sum (2 * L) hM ((t : ℤ) - a - b)]
      _ = ∑ a ∈ Finset.range (2 * L), ∑ b ∈ Finset.range (2 * L),
            (if a + b = t then ((u a : ℝ) : ℂ) * ((k b : ℝ) : ℂ) * ((2 * L : ℕ) : ℂ) else 0) := by
          refine Finset.sum_congr rfl fun a ha => Finset.sum_congr rfl fun b hb => ?_
          rw [Finset.mem_range] at ha hb
          by_cases hsupp : a < L ∧ b < L
          · have hiff : ((2 * L : ℕ) : ℤ) ∣ ((t : ℤ) - a - b) ↔ a + b = t := by
              constructor
              · intro hd
                have habs : |(t : ℤ) - a - b| < ((2 * L : ℕ) : ℤ) := by
                  rw [abs_lt]
                  constructor <;> [push_cast; push_cast] <;> omega
                have h0 := Int.eq_zero_of_abs_lt_dvd hd habs
                omega
              · intro h
                have : (t : ℤ) - a - b = 0 := by omega
                rw [this]
                exact dvd_zero _
            rw [mul_ite, mul_zero, if_congr hiff rfl rfl]
          · rcases not_and_or.mp hsupp with hL | hL
            · have h0 : u a = 0 := hu a (le_of_not_lt hL)
              simp [h0]
            · have h0 : k b = 0 := hk b (le_of_not_lt hL)
              simp [h0]
      _ = ∑ b ∈ Finset.range (2 * L), ∑ a ∈ Finset.range (2 * L),
            (if a + b = t then ((u a : ℝ) : ℂ) * ((k b : ℝ) : ℂ) * ((2 * L : ℕ) : ℂ) else 0) :=
          Finset.sum_comm
      _ = ∑ b ∈ Finset.range (2 * L),
            (if b ≤ t then ((u (t - b) : ℝ) : ℂ) * ((k b : ℝ) : ℂ) * ((2 * L : ℕ) : ℂ) else 0) := by
          refine Finset.sum_congr rfl fun b hb => ?_
          rw [Finset.mem_range] at hb
          by_cases hbt : b ≤ t
          · rw [if_pos hbt]
            have hcond : ∀ a : ℕ, (a + b = t) = (a = t - b) := fun a => by
              apply propext
              omega
            calc ∑ a ∈ Finset.range (2 * L),
                  (if a + b = t then ((u a : ℝ) : ℂ) * ((k b : ℝ) : ℂ) * ((2 * L : ℕ) : ℂ) else 0)
                = ∑ a ∈ Finset.range (2 * L),
                  (if a = t - b then ((u a : ℝ) : ℂ) * ((k b : ℝ) : ℂ) * ((2 * L : ℕ) : ℂ) else 0) := by
                  exact Finset.sum_congr rfl fun a _ => if_congr (by omega) rfl rfl
              _ = ((u (t - b) : ℝ) : ℂ) * ((k b : ℝ) : ℂ) * ((2 * L : ℕ) : ℂ) := by
                  rw [Finset.sum_ite_eq']
                  rw [if_pos (Finset.mem_range.mpr (by omega))]
          · rw [if_neg hbt]
            refine Finset.sum_eq_zero fun a _ => ?_
            rw [if_neg (by omega)]
      _ = ∑ b ∈ Finset.range (t + 1),
            ((u (t - b) : ℝ) : ℂ) * ((k b : ℝ) : ℂ) * ((2 * L : ℕ) : ℂ) := by
          rw [← Finset.sum_filter]
          congr 1
          ext b
          simp only [Finset.mem_filter, Finset.mem_range]
          omega
      _ = ((2 * L : ℕ) : ℂ) * ∑ s ∈ Finset.range (t + 1), ((k s : ℝ) : ℂ) * ((u (t - s) : ℝ) : ℂ) := by
          rw [Finset.mul_sum]
          exact Finset.sum_congr rfl fun s _ => by ring
  -- Step 3: assemble.
  rw [irfft, Finset.sum_congr rfl (fun j hj => by rw [hherm j hj]), hsum,
    inv_mul_cancel_left₀ hMne]
  have hcast : (∑ s ∈ Finset.range (t + 1), ((k s : ℝ) : ℂ) * ((u (t - s) : ℝ) : ℂ))
      = ((∑ s ∈ Finset.range (t + 1), k s * u (t - s) : ℝ) : ℂ) := by
    push_cast
    rfl
  rw [hcast, Complex.ofReal_re]

/-! ### S4DKernel (`src/gwak/train/ssm.py`, `S4DKernel.forward`)

The kernel parameters have channel dimension `H` and `Nh = N // 2`
complex modes per channel.  `forward` materializes
`dt = exp(log_dt)`, `A = -exp(log_A_real) + 1j * A_imag`,
`dtA = A * dt`, `K[h,n,l] = dtA[h,n] * l`,
`C' = C * (exp(dtA) - 1) / A`, and returns
`2 * einsum("hn,hnl->hl", C', exp(K)).real`. -/

namespace S4DKernel

/-- Line `dt = torch.exp(self.log_dt)`. -/
def dt {H : ℕ} (log_dt : Fin H → ℝ) (h : Fin H) : ℝ := Real.exp (log_dt h)

/-- Line `A = -torch.exp(self.log_A_real) + 1j * self.A_imag`. -/
def A {H Nh : ℕ} (log_A_real A_imag : Fin H → Fin Nh → ℝ) (h : Fin H) (n : Fin Nh) : ℂ :=
  -((Real.exp (log_A_real h n) : ℝ) : ℂ) + Complex.I * ((A_imag h n : ℝ) : ℂ)

/-- Line `dtA = A * dt.unsqueeze(-1)`. -/
def dtA {H Nh : ℕ} (log_dt : Fin H → ℝ) (log_A_real A_imag : Fin H → Fin Nh → ℝ)
    (h : Fin H) (n : Fin Nh) : ℂ :=
  A log_A_real A_imag h n * ((dt log_dt h : ℝ) : ℂ)

/-- Line `C = C * (torch.exp(dtA) - 1.0) / A`: zero-order-hold discretized
output coupling. -/
def Cdisc {H Nh : ℕ} (log_dt : Fin H → ℝ) (C : Fin H → Fin Nh → ℂ)
    (log_A_real A_imag : Fin H → Fin Nh → ℝ) (h : Fin H) (n : Fin Nh) : ℂ :=
  C h n * (Complex.exp (dtA log_dt log_A_real A_imag h n) - 1) / A log_A_real A_imag h n

/-- Method `S4DKernel.forward`: entry `(h, l)` of the generated `(H, L)` kernel,
`2 * einsum("hn,hnl->hl", C', exp(dtA.unsqueeze(-1) * arange(L))).real`. -/
def forward {H Nh : ℕ} (L : ℕ) (log_dt : Fin H → ℝ) (C : Fin H → Fin Nh → ℂ)
    (log_A_real A_imag : Fin H → Fin Nh → ℝ) (h : Fin H) (l : Fin L) : ℝ :=
  2 * (∑ n : Fin Nh, Cdisc log_dt C log_A_real A_imag h n
        * Complex.exp (dtA log_dt log_A_real A_imag h n * ((l : ℕ) : ℂ))).re

end S4DKernel

/-! ### S4D convolution stage (`S4D.forward`, lines 181-189)

`k_f = rfft(k, n=2L); u_f = rfft(u, n=2L);
 y = irfft(u_f * k_f, n=2L)[..., :L]; y = y + u * D.unsqueeze(-1)`. -/

namespace S4D

/-- The FFT convolution stage of `S4D.forward`: entry `(b, h, t)` of
`irfft(rfft(u, 2L) * rfft(k, 2L), 2L)[..., :L]`. -/
def convStage (B H L : ℕ) (k : Fin H → Fin L → ℝ) (u : Fin B → Fin H → Fin L → ℝ)
    (b : Fin B) (h : Fin H) (t : Fin L) : ℝ :=
  irfft (2 * L) (fun j => rfftPadded L (u b h) j * rfftPadded L (k h) j) (t : ℕ)

/-- Reference brute-force causal time-domain convolution,
`y[b,h,t] = Σ_{s=0}^{t} k[h,s] · u[b,h,t-s]`, written with direct
in-range indexing into `k` and `u`. -/
def directConv (B H L : ℕ) (k : Fin H → Fin L → ℝ) (u : Fin B → Fin H → Fin L → ℝ)
    (b : Fin B) (h : Fin H) (t : Fin L) : ℝ :=
  ∑ s : Fin ((t : ℕ) + 1),
    k h ⟨(s : ℕ), by omega⟩ * u b h ⟨(t : ℕ) - (s : ℕ), by omega⟩

/-- The skip-connection stage of `S4D.forward`:
`y = conv(u, k) + u * D.unsqueeze(-1)`. -/
def convSkip (B H L : ℕ) (k : Fin H → Fin L → ℝ) (D : Fin H → ℝ)
    (u : Fin B → Fin H → Fin L → ℝ) (b : Fin B) (h : Fin H) (t : Fin L) : ℝ :=
  convStage B H L k u b h t + u b h t * D h

end S4D

lemma padSig_lt (L : ℕ) (x : Fin L → ℝ) (s : ℕ) (hs : s < L) :
    padSig L x s = x ⟨s, hs⟩ := dif_pos hs

lemma padSig_ge (L : ℕ) (x : Fin L → ℝ) (s : ℕ) (hs : L ≤ s) :
    padSig L x s = 0 := dif_neg (not_lt.mpr hs)

lemma padSig_zero (L s : ℕ) : padSig L (fun _ => (0 : ℝ)) s = 0 := by
  rw [padSig]
  split <;> rfl

lemma rfftPadded_zero (L j : ℕ) : rfftPadded L (fun _ => (0 : ℝ)) j = 0 := by
  rw [rfftPadded, dft]
  refine Finset.sum_eq_zero fun s _ => ?_
  rw [padSig_zero]
  simp

lemma irfft_zero (M t : ℕ) : irfft M (fun _ => (0 : ℂ)) t = 0 := by
  rw [irfft]
  have hz : ∑ j ∈ Finset.range M,
      hermBin M (fun _ => (0 : ℂ)) j * cexp2pi M ((j : ℂ) * (t : ℂ)) = 0 := by
    refine Finset.sum_eq_zero fun j _ => ?_
    rw [hermBin]
    split <;> simp
  rw [hz]
  simp

/-- C1: `S4DKernel.forward` returns the real `(H, length)` tensor whose
entry at `(h, t)` is `2 · Re(Σ_n C'[h,n] · exp(dtA[h,n]·t))` with
`dt[h] = exp(log_dt[h])`, `A[h,n] = -exp(log_A_real[h,n]) + i·A_imag[h,n]`,
`dtA[h,n] = A[h,n]·dt[h]` and `C'[h,n] = C[h,n]·(exp(dtA[h,n]) - 1)/A[h,n]`.
Real-valuedness and the `(H, length)` shape are carried by the type
`Fin H → Fin L → ℝ` of the embedding. -/
theorem kernel_forward_entry_formula {H Nh : ℕ} (L : ℕ) (log_dt : Fin H → ℝ)
    (C : Fin H → Fin Nh → ℂ) (log_A_real A_imag : Fin H → Fin Nh → ℝ)
    (h : Fin H) (t : Fin L) :
    S4DKernel.forward L log_dt C log_A_real A_imag h t =
      2 * (∑ n : Fin Nh,
        (C h n
          * (Complex.exp ((-((Real.exp (log_A_real h n) : ℝ) : ℂ)
              + Complex.I * ((A_imag h n : ℝ) : ℂ))
              * ((Real.exp (log_dt h) : ℝ) : ℂ)) - 1)
          / (-((Real.exp (log_A_real h n) : ℝ) : ℂ)
              + Complex.I * ((A_imag h n : ℝ) : ℂ)))
        * Complex.exp ((-((Real.exp (log_A_real h n) : ℝ) : ℂ)
              + Complex.I * ((A_imag h n : ℝ) : ℂ))
            * ((Real.exp (log_dt h) : ℝ) : ℂ) * (((t : ℕ) : ℕ) : ℂ))).re := rfl

/-- C5: the pole matrix `A = -exp(log_A_real) + i·A_imag` computed in
`S4DKernel.forward` has `Re A[h,n] < 0` for every real value of the free
parameter `log_A_real`. -/
theorem pole_real_part_neg {H Nh : ℕ} (log_A_real A_imag : Fin H → Fin Nh → ℝ)
    (h : Fin H) (n : Fin Nh) :
    (S4DKernel.A log_A_real A_imag h n).re < 0 := by
  have hre : (S4DKernel.A log_A_real A_imag h n).re = -Real.exp (log_A_real h n) := by
    simp [S4DKernel.A, Complex.exp_ofReal_re]
  rw [hre]
  exact neg_lt_zero.mpr (Real.exp_pos _)

/-- C2: the frequency-domain convolution stage of `S4D.forward`
(`irfft(rfft(u, 2L) * rfft(k, 2L), 2L)[..., :L]`) equals the direct
causal time-domain convolution
`y[b,h,t] = Σ_{s=0}^{t} k[h,s] · u[b,h,t-s]`, for every kernel of shape
`(H, L)` and input of shape `(B, H, L)`. -/
theorem conv_freq_matches_time (B H L : ℕ) (k : Fin H → Fin L → ℝ)
    (u : Fin B → Fin H → Fin L → ℝ) (b : Fin B) (h : Fin H) (t : Fin L) :
    S4D.convStage B H L k u b h t = S4D.directConv B H L k u b h t := by
  have ht : (t : ℕ) < L := t.isLt
  have hcore := irfft_dft_mul_eq_conv L (padSig L (k h)) (padSig L (u b h))
    (fun s hs => padSig_ge L (k h) s hs) (fun s hs => padSig_ge L (u b h) s hs)
    (t : ℕ) ht
  rw [S4D.convStage]
  rw [show (fun j => rfftPadded L (u b h) j * rfftPadded L (k h) j)
      = (fun j => dft (2 * L) (fun s => ((padSig L (u b h) s : ℝ) : ℂ)) j
          * dft (2 * L) (fun s => ((padSig L (k h) s : ℝ) : ℂ)) j) from rfl]
  rw [hcore, S4D.directConv,
    ← Fin.sum_univ_eq_sum_range
      (fun s => padSig L (k h) s * padSig L (u b h) ((t : ℕ) - s)) ((t : ℕ) + 1)]
  refine Finset.sum_congr rfl fun s _ => ?_
  have hs : (s : ℕ) < (t : ℕ) + 1 := s.isLt
  rw [padSig_lt L (k h) (s : ℕ) (by omega),
    padSig_lt L (u b h) ((t : ℕ) - (s : ℕ)) (by omega)]

/-- C6: with an all-zero kernel, the convolution-plus-skip stage of
`S4D.forward` reduces exactly to the skip path `D[h] · u[b,h,t]`. -/
theorem zero_kernel_skip_only (B H L : ℕ) (D : Fin H → ℝ)
    (u : Fin B → Fin H → Fin L → ℝ) (b : Fin B) (h : Fin H) (t : Fin L) :
    S4D.convSkip B H L (fun _ _ => 0) D u b h t = D h * u b h t := by
  have hzero : S4D.convStage B H L (fun _ _ => 0) u b h t = 0 := by
    rw [S4D.convStage]
    have hfun : (fun j => rfftPadded L (u b h) j
        * rfftPadded L ((fun (_ : Fin H) (_ : Fin L) => (0 : ℝ)) h) j)
        = fun _ => (0 : ℂ) := by
      funext j
      rw [show ((fun (_ : Fin H) (_ : Fin L) => (0 : ℝ)) h) = fun _ => (0 : ℝ) from rfl,
        rfftPadded_zero]
      ring
    rw [hfun, irfft_zero]
  rw [S4D.convSkip, hzero]
  ring

/-! ### Parameter registration (`S4DKernel.__init__` / `S4DKernel.register`)

`register(name, tensor, lr)` registers a frozen buffer when `lr == 0.0`
and otherwise a trainable parameter with an attached `_optim` record
`{"weight_decay": 0.0}` extended with `{"lr": lr}` when `lr is not None`.
`__init__` registers `log_dt`, `log_A_real` and `A_imag` through
`register`, but sets `self.C = nn.Parameter(...)` directly, with no
`_optim` record and never as a buffer. -/

/-- The `_optim` optimizer-override record attached to a registered
parameter: `{"weight_decay": 0.0}` plus an optional `"lr"` entry. -/
structure OptimOverride where
  weight_decay : ℝ
  lr : Option ℝ
  deriving DecidableEq

/-- How a tensor ends up registered on the module: as a frozen buffer,
or as a trainable parameter with an optional attached `_optim` record. -/
inductive TensorReg where
  | buffer : TensorReg
  | param : Option OptimOverride → TensorReg

/-- Method `S4DKernel.register(name, tensor, lr)`: buffer iff `lr == 0.0`
(`None == 0.0` is false in Python), else a parameter with
`_optim = {"weight_decay": 0.0}` plus `"lr": lr` when supplied. -/
def S4DKernel.register (lr : Option ℝ) : TensorReg :=
  match lr with
  | some v => if v = 0 then TensorReg.buffer
              else TensorReg.param (some ⟨0, some v⟩)
  | none => TensorReg.param (some ⟨0, none⟩)

/-- The registration outcome of the four kernel tensors produced by
`S4DKernel.__init__` with state-space learning rate `lr`. -/
structure KernelRegs where
  C : TensorReg
  log_dt : TensorReg
  log_A_real : TensorReg
  A_imag : TensorReg

/-- The `S4DKernel.__init__` registrations: `self.C = nn.Parameter(...)`
directly (no `_optim`); the other three via `register(·, ·, lr)`. -/
def S4DKernel.initRegs (lr : Option ℝ) : KernelRegs where
  C := TensorReg.param none
  log_dt := S4DKernel.register lr
  log_A_real := S4DKernel.register lr
  A_imag := S4DKernel.register lr

/-- The registration discipline claimed for each kernel tensor: frozen
buffer when the effective learning rate is exactly 0, otherwise a
trainable parameter with override `{weight_decay: 0.0, lr: <supplied>}`. -/
def ClaimedReg (lr : Option ℝ) (r : TensorReg) : Prop :=
  (lr = some 0 ∧ r = TensorReg.buffer)
    ∨ (lr ≠ some 0 ∧ r = TensorReg.param (some ⟨0, lr⟩))

/-- C3 counterexample: at `lr = 0.0` the tensor `C` is registered as a
plain trainable parameter with no attached override — not as a frozen
buffer — so the claimed discipline fails for `C`. -/
theorem registration_claim_fails_for_C :
    ¬ ClaimedReg (some 0) (S4DKernel.initRegs (some 0)).C := by
  intro hclaim
  rcases hclaim with ⟨_, hbuf⟩ | ⟨hne, _⟩
  · exact absurd hbuf (by simp [S4DKernel.initRegs])
  · exact hne rfl

/-- C3 (amended): `log_dt`, `log_A_real` and `A_imag` are each
registered as a frozen buffer when the supplied learning rate is exactly
0 and otherwise as a trainable parameter with override
`{weight_decay: 0.0, lr: <value when supplied>}`; `C` is always
registered as a plain trainable parameter with no attached override. -/
theorem registration_amended (lr : Option ℝ) :
    ClaimedReg lr (S4DKernel.initRegs lr).log_dt
      ∧ ClaimedReg lr (S4DKernel.initRegs lr).log_A_real
      ∧ ClaimedReg lr (S4DKernel.initRegs lr).A_imag
      ∧ (S4DKernel.initRegs lr).C = TensorReg.param none := by
  have hreg : ClaimedReg lr (S4DKernel.register lr) := by
    match lr with
    | some v =>
      by_cases hv : v = 0
      · exact Or.inl ⟨by rw [hv], by
          show (if v = 0 then TensorReg.buffer
              else TensorReg.param (some ⟨0, some v⟩)) = TensorReg.buffer
          rw [if_pos hv]⟩
      · exact Or.inr ⟨by simpa using hv, by
          show (if v = 0 then TensorReg.buffer
              else TensorReg.param (some ⟨0, some v⟩))
            = TensorReg.param (some ⟨0, some v⟩)
          rw [if_neg hv]⟩
    | none => exact Or.inr ⟨by simp, rfl⟩
  exact ⟨hreg, hreg, hreg, rfl⟩

/-! ### Dropout probability validation at model construction

The in-repo `DropoutNd.__init__` (ssm.py lines 41-45) raises
`ValueError("dropout probability has to be in [0, 1), but got p")`
when `p < 0 or p >= 1`.  The model construction path, however, never
instantiates `DropoutNd`: `S4D.__init__` (line 163, with the
`DropoutNd` alternative commented out on line 164) and
`S4Model.__init__` (line 241) build `torch.nn.Dropout1d(dropout)`,
whose inherited `_DropoutNd.__init__` validation raises only when
`p < 0 or p > 1` — it accepts `p = 1.0`. -/

/-- The state of a successfully constructed `DropoutNd` module. -/
structure DropoutNdState where
  p : ℝ
  tie : Bool
  transposed : Bool

/-- Constructor `DropoutNd.__init__`: value-error when `p < 0 or p >= 1`,
otherwise the constructed module.  (Unused by the model construction
path; kept as the faithful embedding of the in-repo class.) -/
def DropoutNd.init (p : ℝ) (tie transposed : Bool) : Except String DropoutNdState :=
  if p < 0 ∨ 1 ≤ p then
    Except.error "dropout probability has to be in [0, 1)"
  else
    Except.ok ⟨p, tie, transposed⟩

/-- Validation performed by `torch.nn.Dropout1d` — external PyTorch
code, the dropout module the model actually instantiates: value-error
when `p < 0 or p > 1`, so `p = 1.0` is accepted. -/
def Dropout1d.init (p : ℝ) : Except String ℝ :=
  if p < 0 ∨ 1 < p then
    Except.error "dropout probability has to be between 0 and 1"
  else
    Except.ok p

/-- The dropout validation run when constructing the model:
`S4D.__init__` line 163, `self.dropout = torch.nn.Dropout1d(dropout)`
(and identically `S4Model.__init__` line 241). -/
def S4D.initDropout (p : ℝ) : Except String ℝ := Dropout1d.init p

/-- C4 counterexample: constructing the model with dropout probability
`1.0` does not raise — the `torch.nn.Dropout1d` built by `S4D.__init__`
and `S4Model.__init__` accepts `p = 1`, so construction succeeds and no
value error is ever produced for this input. -/
theorem model_construction_accepts_one :
    S4D.initDropout 1 = Except.ok 1
      ∧ ∀ msg : String, S4D.initDropout 1 ≠ Except.error msg := by
  have hok : S4D.initDropout 1 = Except.ok 1 := by
    rw [S4D.initDropout, Dropout1d.init, if_neg (by norm_num)]
  refine ⟨hok, fun msg hmsg => ?_⟩
  rw [hok] at hmsg
  exact Except.noConfusion hmsg

/-- C4 (amended): constructing the model with a dropout probability
outside `[0, 1]` — in particular `-0.1` — raises a descriptive value
error at construction time, while `0.0`, `0.999`, and also `1.0`
construct successfully (`torch.nn.Dropout1d`, the module built by the
construction path, validates `[0, 1]`, not `[0, 1)`). -/
theorem dropout_validation_amended :
    S4D.initDropout (-0.1)
        = Except.error "dropout probability has to be between 0 and 1"
      ∧ S4D.initDropout 0 = Except.ok 0
      ∧ S4D.initDropout 0.999 = Except.ok 0.999
      ∧ S4D.initDropout 1 = Except.ok 1
      ∧ (∀ p : ℝ, (p < 0 ∨ 1 < p) →
          S4D.initDropout p
            = Except.error "dropout probability has to be between 0 and 1") := by
  refine ⟨?_, ?_, ?_, ?_, fun p hp => ?_⟩
  · rw [S4D.initDropout, Dropout1d.init, if_pos (Or.inl (by norm_num))]
  · rw [S4D.initDropout, Dropout1d.init, if_neg (by norm_num)]
  · rw [S4D.initDropout, Dropout1d.init, if_neg (by norm_num)]
  · rw [S4D.initDropout, Dropout1d.init, if_neg (by norm_num)]
  · rw [S4D.initDropout, Dropout1d.init, if_pos hp]

/-! ### Learning-rate clamping in `S4Model.__init__`

`if lr is not None: lr = min(0.001, lr)`, then every constructed `S4D`
layer receives the resulting value. -/

/-- The clamping applied by `S4Model.__init__` to the state-space
learning rate before constructing the layers. -/
def S4Model.clampLr (lr : Option ℝ) : Option ℝ :=
  match lr with
  | none => none
  | some v => some (min 0.001 v)

/-- The learning rates handed to the `n_layers` constructed `S4D`
layers. -/
def S4Model.layerLrs (n_layers : ℕ) (lr : Option ℝ) : List (Option ℝ) :=
  List.replicate n_layers (S4Model.clampLr lr)

/-- C8: a supplied global state-space learning rate `lr` is clamped to
`min(0.001, lr)` and that value is passed to every constructed `S4D`
layer; `None` is passed through unclamped. -/
theorem ssm_lr_clamped (n_layers : ℕ) (v : ℝ) :
    S4Model.layerLrs n_layers (some v)
        = List.replicate n_layers (some (min 0.001 v))
      ∧ S4Model.layerLrs n_layers none = List.replicate n_layers none := by
  constructor <;> rfl

/-! ### S4DKernel initialization (`S4DKernel.__init__`)

`log_dt = rand(H) * (log(dt_max) - log(dt_min)) + log(dt_min)`,
`log_A_real = log(0.5 * ones(H, N//2))`,
`A_imag = π * repeat(arange(N//2), "n -> h n", h=H)`.
The uniform draw `torch.rand(H)` is modelled by an arbitrary function
`r : Fin H → ℝ` with values in `[0, 1)`. -/

/-- Initial `log_dt[h] = rand()·(log dt_max − log dt_min) + log dt_min`. -/
def S4DKernel.init_log_dt {H : ℕ} (dt_min dt_max : ℝ) (r : Fin H → ℝ) (h : Fin H) : ℝ :=
  r h * (Real.log dt_max - Real.log dt_min) + Real.log dt_min

/-- Initial `log_A_real[h,n] = log(0.5 · 1)`. -/
def S4DKernel.init_log_A_real {H Nh : ℕ} (_ : Fin H) (_ : Fin Nh) : ℝ :=
  Real.log 0.5

/-- Initial `A_imag[h,n] = π · n`. -/
def S4DKernel.init_A_imag {H Nh : ℕ} (_ : Fin H) (n : Fin Nh) : ℝ :=
  Real.pi * ((n : ℕ) : ℝ)

/-- C9: at construction, every entry of `log_dt` lies in
`[log dt_min, log dt_max]`, every entry of `log_A_real` equals
`log 0.5`, and row `h` of `A_imag` is `π · [0, 1, …, N/2 − 1]`. -/
theorem kernel_init_values {H Nh : ℕ} (dt_min dt_max : ℝ) (r : Fin H → ℝ)
    (h : Fin H) (n : Fin Nh) (hmin : 0 < dt_min) (hle : dt_min ≤ dt_max)
    (hr0 : 0 ≤ r h) (hr1 : r h < 1) :
    Real.log dt_min ≤ S4DKernel.init_log_dt dt_min dt_max r h
      ∧ S4DKernel.init_log_dt dt_min dt_max r h ≤ Real.log dt_max
      ∧ S4DKernel.init_log_A_real h n = Real.log 0.5
      ∧ S4DKernel.init_A_imag h n = Real.pi * ((n : ℕ) : ℝ) := by
  have hlog : Real.log dt_min ≤ Real.log dt_max := Real.log_le_log hmin hle
  have hd : 0 ≤ Real.log dt_max - Real.log dt_min := sub_nonneg.mpr hlog
  refine ⟨?_, ?_, rfl, rfl⟩
  · rw [S4DKernel.init_log_dt]
    nlinarith
  · rw [S4DKernel.init_log_dt]
    have hmul : r h * (Real.log dt_max - Real.log dt_min)
        ≤ Real.log dt_max - Real.log dt_min :=
      mul_le_of_le_one_left hd hr1.le
    linarith

/-- Witness for C9 at the default configuration `dt_min = 0.001`,
`dt_max = 0.1`, a draw of `0`, `H = Nh = 1`. -/
theorem kernel_init_values_witness :
    (0 : ℝ) < 0.001 ∧ (0.001 : ℝ) ≤ 0.1
      ∧ (0 : ℝ) ≤ (fun _ : Fin 1 => (0 : ℝ)) 0 ∧ ((fun _ : Fin 1 => (0 : ℝ)) 0 : ℝ) < 1
      ∧ (Real.log 0.001 ≤ S4DKernel.init_log_dt 0.001 0.1 (fun _ : Fin 1 => 0) 0
          ∧ S4DKernel.init_log_dt 0.001 0.1 (fun _ : Fin 1 => 0) 0 ≤ Real.log 0.1
          ∧ S4DKernel.init_log_A_real (0 : Fin 1) (0 : Fin 1) = Real.log 0.5
          ∧ S4DKernel.init_A_imag (0 : Fin 1) (0 : Fin 1)
              = Real.pi * (((0 : Fin 1) : ℕ) : ℝ)) :=
  ⟨by norm_num, by norm_num, le_rfl, by norm_num,
    kernel_init_values 0.001 0.1 (fun _ : Fin 1 => 0) 0 (0 : Fin 1)
      (by norm_num) (by norm_num) le_rfl (by norm_num)⟩

/-! ### GatedFeedforward pieces and the full `S4D.forward` / `S4Model.forward`

`S4D.forward` (with `transposed=True`, as `S4Model` constructs it):
FFT convolution, skip term, GELU, `torch.nn.Dropout1d`, then
`Conv1d(H, 2H, kernel_size=1)` followed by `GLU(dim=-2)`.
`S4Model.forward`: linear encoder, a stack of residual blocks with
pre- or post- `LayerNorm` and `Dropout1d`, temporal mean pooling, linear
decoder. -/

/-- The Gauss error function, `erf x = (2/√π) ∫₀ˣ exp(−t²) dt`. -/
def erf (x : ℝ) : ℝ :=
  (2 / Real.sqrt Real.pi) * ∫ s in (0 : ℝ)..x, Real.exp (-(s ^ 2))

/-- Activation `torch.nn.GELU` (exact form): `0.5 · x · (1 + erf(x/√2))`. -/
def gelu (x : ℝ) : ℝ := 0.5 * x * (1 + erf (x / Real.sqrt 2))

/-- The logistic sigmoid used by `torch.nn.GLU`. -/
def sigmoid (x : ℝ) : ℝ := 1 / (1 + Real.exp (-x))

/-- Embedding of `torch.nn.Dropout1d(p)` on a `(B, H, L)` tensor: in training mode,
zero whole channels according to the Bernoulli mask `m` and rescale the
kept ones by `1/(1-p)`; in evaluation mode, the identity. -/
def dropout1d {B H L : ℕ} (training : Bool) (p : ℝ) (m : Fin B → Fin H → Bool)
    (x : Fin B → Fin H → Fin L → ℝ) : Fin B → Fin H → Fin L → ℝ :=
  if training then
    fun b h t => x b h t * (if m b h then (1 - p)⁻¹ else 0)
  else x

/-- Parameters of one `S4D` layer (channels `H = d_model`,
`Nh = d_state // 2` complex modes, sequence length `L`): the kernel
parameters, the skip vector `D`, and the `Conv1d(H, 2H, 1)` weight and
bias of `output_linear`. -/
structure S4DLayerParams (dModel Nh L : ℕ) where
  log_dt : Fin dModel → ℝ
  C : Fin dModel → Fin Nh → ℂ
  log_A_real : Fin dModel → Fin Nh → ℝ
  A_imag : Fin dModel → Fin Nh → ℝ
  D : Fin dModel → ℝ
  W : Fin (2 * dModel) → Fin dModel → ℝ
  Wb : Fin (2 * dModel) → ℝ

/-- Full `S4D.forward` (with `transposed=True`): kernel generation, FFT
convolution, skip term, GELU, channel dropout, `Conv1d` + `GLU`. -/
def S4D.fullForward {B dModel Nh L : ℕ} (P : S4DLayerParams dModel Nh L)
    (training : Bool) (p : ℝ) (m : Fin B → Fin dModel → Bool)
    (u : Fin B → Fin dModel → Fin L → ℝ) : Fin B → Fin dModel → Fin L → ℝ :=
  let k : Fin dModel → Fin L → ℝ :=
    S4DKernel.forward L P.log_dt P.C P.log_A_real P.A_imag
  let y1 : Fin B → Fin dModel → Fin L → ℝ :=
    fun b h t => S4D.convStage B dModel L k u b h t + u b h t * P.D h
  let y2 : Fin B → Fin dModel → Fin L → ℝ :=
    dropout1d training p m (fun b h t => gelu (y1 b h t))
  let a : Fin B → Fin (2 * dModel) → Fin L → ℝ :=
    fun b c t => P.Wb c + ∑ i : Fin dModel, P.W c i * y2 b i t
  fun b h t =>
    a b ⟨(h : ℕ), by have := h.isLt; omega⟩ t
      * sigmoid (a b ⟨(h : ℕ) + dModel, by have := h.isLt; omega⟩ t)

/-- Embedding of `torch.nn.LayerNorm(d_model)` applied to one feature vector:
`γ ⊙ (v − μ)/√(σ² + 1e-5) + β` with biased variance. -/
def layerNorm {dModel : ℕ} (γ β : Fin dModel → ℝ) (v : Fin dModel → ℝ)
    (i : Fin dModel) : ℝ :=
  let μ := (∑ j : Fin dModel, v j) / dModel
  let σ2 := (∑ j : Fin dModel, (v j - μ) ^ 2) / dModel
  γ i * ((v i - μ) / Real.sqrt (σ2 + 1e-5)) + β i

/-- Parameters of one residual block of `S4Model`: the `S4D` layer and
its `LayerNorm` affine parameters. -/
structure S4ModelLayer (dModel Nh L : ℕ) where
  s4d : S4DLayerParams dModel Nh L
  lnW : Fin dModel → ℝ
  lnB : Fin dModel → ℝ

/-- All parameters of `S4Model`: encoder, residual blocks, decoder. -/
structure S4ModelParams (dIn dModel dOut Nh L : ℕ) where
  encW : Fin dModel → Fin dIn → ℝ
  encB : Fin dModel → ℝ
  layers : List (S4ModelLayer dModel Nh L)
  decW : Fin dOut → Fin dModel → ℝ
  decB : Fin dOut → ℝ

/-- The per-call random dropout masks of one residual block: the mask
used inside `S4D.forward` and the mask of the outer block `Dropout1d`. -/
structure DropMasks (B H : ℕ) where
  inner : Fin B → Fin H → Bool
  outer : Fin B → Fin H → Bool

/-- One iteration of the layer loop in `S4Model.forward`: optional
prenorm, `S4D` block, dropout, residual add, optional postnorm. -/
def S4Model.layerStep {B dModel Nh L : ℕ} (prenorm training : Bool) (p : ℝ)
    (lp : S4ModelLayer dModel Nh L) (mk : DropMasks B dModel)
    (x : Fin B → Fin dModel → Fin L → ℝ) : Fin B → Fin dModel → Fin L → ℝ :=
  let z0 : Fin B → Fin dModel → Fin L → ℝ :=
    if prenorm then fun b h t => layerNorm lp.lnW lp.lnB (fun i => x b i t) h
    else x
  let z1 := S4D.fullForward lp.s4d training p mk.inner z0
  let z2 := dropout1d training p mk.outer z1
  let x1 : Fin B → Fin dModel → Fin L → ℝ := fun b h t => z2 b h t + x b h t
  if prenorm then x1
  else fun b h t => layerNorm lp.lnW lp.lnB (fun i => x1 b i t) h

/-- The layer loop of `S4Model.forward`, consuming one `DropMasks` per
block from the random source `ms`. -/
def S4Model.applyLayers {B dModel Nh L : ℕ} (prenorm training : Bool) (p : ℝ)
    (ms : ℕ → DropMasks B dModel) (i : ℕ)
    (layers : List (S4ModelLayer dModel Nh L))
    (x : Fin B → Fin dModel → Fin L → ℝ) : Fin B → Fin dModel → Fin L → ℝ :=
  match layers with
  | [] => x
  | lp :: rest =>
      S4Model.applyLayers prenorm training p ms (i + 1) rest
        (S4Model.layerStep prenorm training p lp (ms i) x)

/-- Method `S4Model.forward`: encoder, layer stack, temporal mean pooling,
decoder; entry `(b, j)` of the `(B, d_output)` result. -/
def S4Model.forward {B dIn dModel dOut Nh L : ℕ}
    (P : S4ModelParams dIn dModel dOut Nh L) (prenorm training : Bool)
    (p : ℝ) (ms : ℕ → DropMasks B dModel)
    (x : Fin B → Fin dIn → Fin L → ℝ) (b : Fin B) (j : Fin dOut) : ℝ :=
  let xe : Fin B → Fin dModel → Fin L → ℝ :=
    fun b h t => P.encB h + ∑ i : Fin dIn, P.encW h i * x b i t
  let xs := S4Model.applyLayers prenorm training p ms 0 P.layers xe
  let pooled : Fin B → Fin dModel → ℝ :=
    fun b h => (∑ t : Fin L, xs b h t) / L
  P.decB j + ∑ h : Fin dModel, P.decW j h * pooled b h

/-- The `S4Model.forward` output packaged as a concrete list-of-rows tensor, to
state the output shape as data. -/
def S4Model.forwardT {B dIn dModel dOut Nh L : ℕ}
    (P : S4ModelParams dIn dModel dOut Nh L) (prenorm training : Bool)
    (p : ℝ) (ms : ℕ → DropMasks B dModel)
    (x : Fin B → Fin dIn → Fin L → ℝ) : List (List ℝ) :=
  List.ofFn fun b : Fin B =>
    List.ofFn fun j : Fin dOut => S4Model.forward P prenorm training p ms x b j

/-- C7: `S4Model.forward` maps any input of shape `(B, d_input, L)` to an
output of shape `(B, d_output)`, for every batch size, both prenorm
settings, and either execution mode; in particular `(2, 3, 16)` with
`d_output = 5` yields shape `(2, 5)`. -/
theorem model_output_shape {B dIn dModel dOut Nh L : ℕ}
    (P : S4ModelParams dIn dModel dOut Nh L) (prenorm training : Bool)
    (p : ℝ) (ms : ℕ → DropMasks B dModel) (x : Fin B → Fin dIn → Fin L → ℝ) :
    (S4Model.forwardT P prenorm training p ms x).length = B
      ∧ (S4Model.forwardT P prenorm training p ms x).map List.length
          = List.replicate B dOut := by
  constructor
  · rw [S4Model.forwardT, List.length_ofFn]
  · rw [S4Model.forwardT, List.map_ofFn]
    have hlen : (List.length ∘ fun b : Fin B =>
        List.ofFn fun j : Fin dOut => S4Model.forward P prenorm training p ms x b j)
        = fun _ : Fin B => dOut := by
      funext b
      exact List.length_ofFn _
    rw [hlen, List.ofFn_const]

lemma layerStep_eval_mask_free {B dModel Nh L : ℕ} (prenorm : Bool) (p : ℝ)
    (lp : S4ModelLayer dModel Nh L) (mk mk' : DropMasks B dModel)
    (x : Fin B → Fin dModel → Fin L → ℝ) :
    S4Model.layerStep prenorm false p lp mk x
      = S4Model.layerStep prenorm false p lp mk' x := rfl

lemma applyLayers_eval_mask_free {B dModel Nh L : ℕ} (prenorm : Bool) (p : ℝ)
    (ms ms' : ℕ → DropMasks B dModel) (i i' : ℕ)
    (layers : List (S4ModelLayer dModel Nh L))
    (x : Fin B → Fin dModel → Fin L → ℝ) :
    S4Model.applyLayers prenorm false p ms i layers x
      = S4Model.applyLayers prenorm false p ms' i' layers x := by
  induction layers generalizing i i' x with
  | nil => rfl
  | cons lp rest ih =>
      show S4Model.applyLayers prenorm false p ms (i + 1) rest
          (S4Model.layerStep prenorm false p lp (ms i) x)
        = S4Model.applyLayers prenorm false p ms' (i' + 1) rest
          (S4Model.layerStep prenorm false p lp (ms' i') x)
      rw [layerStep_eval_mask_free prenorm p lp (ms i) (ms' i') x]
      exact ih (i + 1) (i' + 1) _

/-- C10: in evaluation mode (`training = false`), `S4Model.forward` does
not depend on the dropout randomness: every dropout reduces to the
identity and the output is a deterministic function of the parameters
and the input. -/
theorem eval_forward_deterministic {B dIn dModel dOut Nh L : ℕ}
    (P : S4ModelParams dIn dModel dOut Nh L) (prenorm : Bool) (p : ℝ)
    (ms ms' : ℕ → DropMasks B dModel) (x : Fin B → Fin dIn → Fin L → ℝ)
    (b : Fin B) (j : Fin dOut) :
    S4Model.forward P prenorm false p ms x b j
      = S4Model.forward P prenorm false p ms' x b j := by
  have h : S4Model.applyLayers prenorm false p ms 0 P.layers
      (fun b h t => P.encB h + ∑ i : Fin dIn, P.encW h i * x b i t)
      = S4Model.applyLayers prenorm false p ms' 0 P.layers
      (fun b h t => P.encB h + ∑ i : Fin dIn, P.encW h i * x b i t) :=
    applyLayers_eval_mask_free prenorm p ms ms' 0 0 P.layers _
  show P.decB j + ∑ hh : Fin dModel, P.decW j hh
      * ((∑ t : Fin L, S4Model.applyLayers prenorm false p ms 0 P.layers
          (fun b h t => P.encB h + ∑ i : Fin dIn, P.encW h i * x b i t) b hh t) / L)
    = P.decB j + ∑ hh : Fin dModel, P.decW j hh
      * ((∑ t : Fin L, S4Model.applyLayers prenorm false p ms' 0 P.layers
          (fun b h t => P.encB h + ∑ i : Fin dIn, P.encW h i * x b i t) b hh t) / L)
  rw [h]

/-- Witness for the amended C4 at the concrete input `p = -0.1`. -/
theorem dropout_validation_amended_witness :
    S4D.initDropout (-0.1)
      = Except.error "dropout probability has to be between 0 and 1" :=
  dropout_validation_amended.1
